import Mathlib

/-!
Shallow embedding of the zap structured-logging core: severity levels,
the Logger facade (gating, hooks, per-severity calls, Check), the
io-backed Facility, and the test spy Facility/Sink.

Sources embedded: `src/logger.go` (Logger facade), `src/unnamed/part_000`
(the current `ioFacility` draft, lines 97-162), `src/spy/logger.go`
(spy Sink and spyFacility).
-/

namespace Zap

/-- Modelled from the spec: the ordered severity scale
{Debug, Info, Warn, Error, DPanic, Panic, Fatal} (spec section 3); the
`Level` type itself is not under src/.  Constructors are listed in
ascending severity order. -/
inductive Level where
  | debug
  | info
  | warn
  | error
  | dpanic
  | panic
  | fatal
deriving DecidableEq, Repr

/-- Numeric rank of a severity, respecting the spec's fixed total order. -/
def Level.toNat : Level → Nat
  | .debug => 0
  | .info => 1
  | .warn => 2
  | .error => 3
  | .dpanic => 4
  | .panic => 5
  | .fatal => 6

/-- Modelled from the spec: the fixed-threshold `LevelEnabler` —
"A fixed threshold returns true iff `severity >= threshold`"
(spec section 4.1); the `Level.Enabled` method is not under src/. -/
def levelEnabled (t s : Level) : Bool := t.toNat ≤ s.toNat

/-- Strict severity comparison, used by the facility's
`ent.Level > ErrorLevel` test. -/
def Level.gt (a b : Level) : Bool := b.toNat < a.toNat

/-- An opaque structured key/value pair; the core never inspects it
(spec section 3), so any carrier with decidable equality is faithful. -/
structure Field where
  key : String
  value : String
deriving DecidableEq, Repr

/-- A Record/Entry: captured time, severity, message
(`zap.Entry`; the bound facility is modelled at the call sites that
set it: `loggerCheck` below). -/
structure Entry where
  time : Nat
  level : Level
  message : String
deriving DecidableEq, Repr

/-- A Hook `func(*Entry) error`: it may mutate the entry through the
pointer and may return an error; modelled functionally as returning the
updated entry together with the optional error message. -/
def Hook := Entry → Entry × Option String

/-- Cause tags of internal error reports; the source passes the string
literals with these spellings to `Logger.InternalError`. -/
inductive Cause where
  | hook
  | encoder
deriving DecidableEq, Repr

/-- Observable events of one logging call, in program order:
bytes handed to the output sink by `Encoder.WriteEntry`, the pooled
encoder release, an output `Sync`, an `InternalError` report (cause
tag plus error) written to the error sink, a `panic(msg)`, and an
`os.Exit(code)`. -/
inductive Event where
  | write (msg : String) (lvl : Level) (time : Nat) (ok : Bool)
  | free
  | sync
  | internalError (cause : Cause) (err : String)
  | panicked (msg : String)
  | exited (code : Nat)
deriving DecidableEq, Repr

/-- Embeds the hook loop of `Logger.Log` (src/logger.go lines 168-172):
run the hooks in order, threading the mutable entry, and emit one
`InternalError` event with cause `hook` per hook that returns an
error. -/
def runHooks : List Hook → Entry → Entry × List Event
  | [], ent => (ent, [])
  | h :: hs, ent =>
      let step := h ent
      let rest := runHooks hs step.1
      (rest.1,
        (match step.2 with
         | some e => [Event.internalError Cause.hook e]
         | none => []) ++ rest.2)

/-- The pure record-mutation effect of the hook pipeline: the entry
obtained by applying each hook in registration order, errors ignored. -/
def applyHooks (hs : List Hook) (ent : Entry) : Entry :=
  hs.foldl (fun e h => (h e).1) ent

/-- Number of hooks that return an error when run in registration order
against the threaded entry. -/
def countFail : List Hook → Entry → Nat
  | [], _ => 0
  | h :: hs, ent =>
      (if (h ent).2.isSome then 1 else 0) + countFail hs (h ent).1

/-- Embeds `ioFacility.Log` (src/unnamed/part_000 lines 149-162): clone
the encoder, add the per-call fields, call `WriteEntry` (an error from
it is swallowed — the `InternalError` call for cause `encoder` is
commented out behind a TODO, so no error event is emitted), `Free` the
clone, and `Sync` the output iff the entry's level exceeds Error.
`encErr` is the error `WriteEntry` returns, if any; the write event
records whether it succeeded. -/
def ioFacilityLog (encErr : Option String) (ent : Entry) (_fields : List Field) :
    List Event :=
  [Event.write ent.message ent.level ent.time encErr.isNone]
    ++ []
    ++ [Event.free]
    ++ (if ent.level.gt Level.error then [Event.sync] else [])

/-- The Logger facade state (src/logger.go lines 35-42): a fixed
severity threshold (the `LevelEnabler`), the development flag, and the
hook list.  The Facility and error sink are modelled at the call sites
(facility eligibility is a parameter; error-sink writes are
`Event.internalError`). -/
structure Logger where
  threshold : Level
  development : Bool
  hooks : List Hook

/-- Embeds `Logger.Log` (src/logger.go lines 160-174) over the io
facility: return early if the threshold gate or the facility
eligibility gate rejects the entry; otherwise run the hooks and deliver
the (possibly mutated) entry through `ioFacility.Log`.  There is no
special case for any level here. -/
def loggerLogTrace (L : Logger) (facEnabled : Entry → Bool)
    (encErr : Option String) (ent : Entry) (fields : List Field) : List Event :=
  if !(levelEnabled L.threshold ent.level) then []
  else if !(facEnabled ent) then []
  else
    let r := runHooks L.hooks ent
    r.2 ++ ioFacilityLog encErr r.1 fields

/-- Embeds `Logger.log` (src/logger.go lines 151-157): build an entry at
the given level with the current time and delegate to `Logger.Log`. -/
def loggerCallTrace (L : Logger) (facEnabled : Entry → Bool)
    (encErr : Option String) (lvl : Level) (msg : String) (now : Nat)
    (fields : List Field) : List Event :=
  loggerLogTrace L facEnabled encErr ⟨now, lvl, msg⟩ fields

/-- Embeds `Logger.DPanic` (src/logger.go lines 132-137): log at
DPanicLevel, then `panic(msg)` iff in development mode. -/
def loggerDPanicTrace (L : Logger) (facEnabled : Entry → Bool)
    (encErr : Option String) (msg : String) (now : Nat)
    (fields : List Field) : List Event :=
  loggerCallTrace L facEnabled encErr Level.dpanic msg now fields
    ++ (if L.development then [Event.panicked msg] else [])

/-- Embeds `Logger.Panic` (src/logger.go lines 140-143): log at
PanicLevel, then `panic(msg)` unconditionally. -/
def loggerPanicTrace (L : Logger) (facEnabled : Entry → Bool)
    (encErr : Option String) (msg : String) (now : Nat)
    (fields : List Field) : List Event :=
  loggerCallTrace L facEnabled encErr Level.panic msg now fields
    ++ [Event.panicked msg]

/-- Embeds `Logger.Fatal` (src/logger.go lines 146-149): log at
FatalLevel, then `os.Exit(1)` unconditionally. -/
def loggerFatalTrace (L : Logger) (facEnabled : Entry → Bool)
    (encErr : Option String) (msg : String) (now : Nat)
    (fields : List Field) : List Event :=
  loggerCallTrace L facEnabled encErr Level.fatal msg now fields
    ++ [Event.exited 1]

/-- Embeds `Logger.Check` (src/logger.go lines 83-109): Panic and Fatal
skip both gates; DPanic skips them in development mode, otherwise it
falls through to the default gating; all other levels pass through the
threshold gate and the facility eligibility gate.  A successful check
returns the entry together with the logger's facility `fac` (the
source's `ent.fac = log.Facility` binding); a suppressed check returns
`none` (the source's nil). -/
def loggerCheck {F : Type} (L : Logger) (fac : F) (facEnabled : Entry → Bool)
    (lvl : Level) (msg : String) (now : Nat) : Option (Entry × F) :=
  let ent : Entry := ⟨now, lvl, msg⟩
  if lvl = Level.panic ∨ lvl = Level.fatal then some (ent, fac)
  else if lvl = Level.dpanic ∧ L.development then some (ent, fac)
  else if !(levelEnabled L.threshold lvl) then none
  else if !(facEnabled ent) then none
  else some (ent, fac)

/-- Tests whether an event is a `WriteEntry` reaching the output sink. -/
def isWriteEv : Event → Bool
  | .write _ _ _ _ => true
  | _ => false

/-- Tests whether an event is an output `Sync`. -/
def isSyncEv : Event → Bool
  | .sync => true
  | _ => false

/-- Tests whether an event is a process exit. -/
def isExitEv : Event → Bool
  | .exited _ => true
  | _ => false

/-- Tests whether an event is an internal error report with cause
`hook`. -/
def isHookErrEv : Event → Bool
  | .internalError Cause.hook _ => true
  | _ => false

/-- Tests whether an event is an internal error report of any cause. -/
def isInternalErrEv : Event → Bool
  | .internalError _ _ => true
  | _ => false

/-- Tests whether an event is a raised panic. -/
def isPanickedEv : Event → Bool
  | .panicked _ => true
  | _ => false

/-- Tests whether an event can be produced by the body of `Logger.Log`
(hook error reports and facility delivery events), as opposed to the
panic/exit escalations appended by DPanic, Panic and Fatal. -/
def isLogBodyEv : Event → Bool
  | .write _ _ _ _ => true
  | .free => true
  | .sync => true
  | .internalError _ _ => true
  | .panicked _ => false
  | .exited _ => false

/-- Whether a trace contains a delivery (a `WriteEntry` reaching the
output sink). -/
def hasWrite (tr : List Event) : Bool := tr.any isWriteEv

/-- Count the `Sync` events of a trace. -/
def countSync (tr : List Event) : Nat := tr.countP fun e => isSyncEv e

/-- Count the internal error reports of a trace carrying the `hook`
cause tag. -/
def countHookErr (tr : List Event) : Nat := tr.countP fun e => isHookErrEv e

/-- Count all internal error reports of a trace, any cause. -/
def countInternalErr (tr : List Event) : Nat :=
  tr.countP fun e => isInternalErrEv e

/-- Count the raised panics of a trace. -/
def countPanicked (tr : List Event) : Nat := tr.countP fun e => isPanickedEv e

/-- A spy Log record (src/spy/logger.go lines 30-34): level, message and
the full field list handed to the sink. -/
structure SpyLog where
  level : Level
  msg : String
  fields : List Field
deriving DecidableEq, Repr

/-- Embeds `Sink.WriteLog` (src/spy/logger.go lines 44-53): under the
sink's mutex, append one complete record to the accumulated logs.  The
sink state is its `logs` slice. -/
def sinkWriteLog (sink : List SpyLog) (lvl : Level) (msg : String)
    (fields : List Field) : List SpyLog :=
  sink ++ [⟨lvl, msg, fields⟩]

/-- The spy facility state (src/spy/logger.go lines 64-68): the
accumulated context fields.  The shared sink is threaded explicitly
through `spyFacilityLog`. -/
structure SpyFacility where
  context : List Field
deriving DecidableEq, Repr

/-- Embeds `spyFacility.With` (src/spy/logger.go lines 70-75): a new
facility over the same sink whose context is the parent's context with
the given fields appended. -/
def spyFacilityWith (sf : SpyFacility) (fields : List Field) : SpyFacility :=
  ⟨sf.context ++ fields⟩

/-- Embeds `spyFacility.Enabled` (src/spy/logger.go line 77):
unconditionally true. -/
def spyFacilityEnabled (_sf : SpyFacility) (_ent : Entry) : Bool := true

/-- Embeds `spyFacility.Log` (src/spy/logger.go lines 79-84): write one
record whose fields are the context followed by the per-call fields. -/
def spyFacilityLog (sf : SpyFacility) (ent : Entry) (fields : List Field)
    (sink : List SpyLog) : List SpyLog :=
  sinkWriteLog sink ent.level ent.message (sf.context ++ fields)

/-- A Logger whose facility is the spy facility (src/logger.go lines
35-42); the error sink is identified by an opaque id so that sharing by
reference is stateable. -/
structure SpyLogger where
  threshold : Level
  development : Bool
  hooks : List Hook
  errorOutput : Nat
  fac : SpyFacility

/-- Embeds `Logger.With` (src/logger.go lines 72-80): a new Logger
sharing the threshold, hooks, error sink and development flag, whose
facility is the parent's facility derived with the given fields. -/
def spyLoggerWith (L : SpyLogger) (fields : List Field) : SpyLogger :=
  { threshold := L.threshold
    fac := spyFacilityWith L.fac fields
    development := L.development
    hooks := L.hooks
    errorOutput := L.errorOutput }

/-- Embeds `Logger.Log` (src/logger.go lines 160-174) over the spy
facility, acting on the shared sink state. -/
def spyLoggerLog (L : SpyLogger) (ent : Entry) (fields : List Field)
    (sink : List SpyLog) : List SpyLog :=
  if !(levelEnabled L.threshold ent.level) then sink
  else if !(spyFacilityEnabled L.fac ent) then sink
  else spyFacilityLog L.fac (runHooks L.hooks ent).1 fields sink

/-- Interleaved execution against one shared spy sink.  Because
`Sink.WriteLog` holds the sink's mutex for the whole append
(src/spy/logger.go lines 44-53), each concurrent log call contributes
its complete record as one atomic step; `pend i` is caller `i`'s queue
of pending records and the schedule says whose next call runs at each
step. -/
def runSched : List Nat → (Nat → List SpyLog) → List SpyLog
  | [], _ => []
  | i :: s, pend =>
      match pend i with
      | [] => runSched s pend
      | r :: rest => r :: runSched s (Function.update pend i rest)

/-- A concrete two-caller workload for the interleaving model: callers
0 and 1 each have two pending records; all other callers are idle. -/
def pendTwo : Nat → List SpyLog
  | 0 => [⟨Level.info, "a0", []⟩, ⟨Level.info, "a1", []⟩]
  | 1 => [⟨Level.info, "b0", []⟩, ⟨Level.info, "b1", []⟩]
  | _ => []

lemma runHooks_fst (hs : List Hook) : ∀ ent : Entry,
    (runHooks hs ent).1 = applyHooks hs ent := by
  induction hs with
  | nil => intro ent; rfl
  | cons h t ih =>
      intro ent
      show (runHooks t (h ent).1).1 = _
      rw [ih]
      rfl

lemma runHooks_events_hookErr (hs : List Hook) : ∀ ent : Entry,
    ∀ e ∈ (runHooks hs ent).2, ∃ s, e = Event.internalError Cause.hook s := by
  induction hs with
  | nil => intro ent e he; simp [runHooks] at he
  | cons h t ih =>
      intro ent e he
      simp only [runHooks, List.mem_append] at he
      rcases he with he | he
      · rcases hs : (h ent).2 with _ | s
        · rw [hs] at he; simp at he
        · rw [hs] at he; simp at he; exact ⟨s, he⟩
      · exact ih _ e he

lemma runHooks_events_length (hs : List Hook) : ∀ ent : Entry,
    (runHooks hs ent).2.length = countFail hs ent := by
  induction hs with
  | nil => intro ent; rfl
  | cons h t ih =>
      intro ent
      show ((match (h ent).2 with
        | some e => [Event.internalError Cause.hook e]
        | none => []) ++ (runHooks t (h ent).1).2).length = _
      rw [List.length_append, ih]
      rcases hs : (h ent).2 with _ | s <;>
        simp [countFail, hs]

lemma mem_ioFacilityLog (encErr : Option String) (ent : Entry) (fs : List Field) :
    ∀ e ∈ ioFacilityLog encErr ent fs,
      e = Event.write ent.message ent.level ent.time encErr.isNone
        ∨ e = Event.free ∨ e = Event.sync := by
  intro e he
  unfold ioFacilityLog at he
  cases hgt : ent.level.gt Level.error <;> simp [hgt] at he <;> tauto

lemma loggerLogTrace_pass (L : Logger) (fe : Entry → Bool) (encErr : Option String)
    (ent : Entry) (fs : List Field)
    (h1 : levelEnabled L.threshold ent.level = true) (h2 : fe ent = true) :
    loggerLogTrace L fe encErr ent fs
      = (runHooks L.hooks ent).2
          ++ ioFacilityLog encErr (runHooks L.hooks ent).1 fs := by
  unfold loggerLogTrace
  rw [h1, h2]
  rfl

lemma loggerLogTrace_body (L : Logger) (fe : Entry → Bool) (encErr : Option String)
    (ent : Entry) (fs : List Field) :
    ∀ e ∈ loggerLogTrace L fe encErr ent fs, isLogBodyEv e = true := by
  intro e he
  cases h1 : levelEnabled L.threshold ent.level
  · unfold loggerLogTrace at he; rw [h1] at he; simp at he
  · cases h2 : fe ent
    · unfold loggerLogTrace at he; rw [h1, h2] at he; simp at he
    · rw [loggerLogTrace_pass L fe encErr ent fs h1 h2, List.mem_append] at he
      rcases he with he | he
      · rcases runHooks_events_hookErr L.hooks ent e he with ⟨s, rfl⟩; rfl
      · rcases mem_ioFacilityLog encErr _ fs e he with h | h | h <;> subst h <;> rfl

lemma body_not_exit {e : Event} (h : isLogBodyEv e = true) : isExitEv e = false := by
  cases e <;> first
    | rfl
    | simp [isLogBodyEv] at h

lemma body_not_panicked {e : Event} (h : isLogBodyEv e = true) :
    isPanickedEv e = false := by
  cases e <;> first
    | rfl
    | simp [isLogBodyEv] at h

/-- C1 (amended): a `Logger.Log` call delivers its record iff the fixed
threshold enables the severity and the Facility reports it eligible —
uniformly for every severity, including DPanic, Panic and Fatal, which
get no gating bypass inside `Logger.Log` (the bypass exists only in
`Logger.Check`; the panic/exit side effects still always occur). -/
theorem c1_delivery_gating (L : Logger) (fe : Entry → Bool) (encErr : Option String)
    (ent : Entry) (fs : List Field) :
    hasWrite (loggerLogTrace L fe encErr ent fs)
      = (levelEnabled L.threshold ent.level && fe ent) := by
  unfold loggerLogTrace
  cases h1 : levelEnabled L.threshold ent.level
  · simp [hasWrite]
  · cases h2 : fe ent
    · simp [hasWrite]
    · simp [hasWrite, ioFacilityLog, isWriteEv, List.any_append]

/-- C1 counterexample: with fixed threshold Fatal and an
always-eligible facility, a Panic-severity call is not delivered, even
though the claim says Panic always proceeds to delivery regardless of
both gates. -/
theorem c1_counterexample :
    (Level.panic = Level.panic ∨ Level.panic = Level.fatal)
    ∧ hasWrite (loggerCallTrace ⟨Level.fatal, false, []⟩ (fun _ => true) none
        Level.panic ("m") 0 []) = false :=
  ⟨Or.inl rfl, by decide⟩

/-- C2: basic-facility delivery calls the sink's `Sync` exactly once
when the severity exceeds Error and never otherwise; when it syncs, the
sync comes after the record's bytes were written; and a Fatal call's
process exit is the single exit event and comes only after the whole
delivery (including any flush) completed. -/
theorem c2_flush_then_exit (encErr : Option String) (ent : Entry) (fs : List Field)
    (L : Logger) (fe : Entry → Bool) (msg : String) (now : Nat) (gs : List Field) :
    countSync (ioFacilityLog encErr ent fs)
        = (if ent.level.gt Level.error then 1 else 0)
    ∧ (ent.level.gt Level.error = true →
        ∃ a b, ioFacilityLog encErr ent fs = a ++ Event.sync :: b ∧ hasWrite a = true)
    ∧ (∃ t, loggerFatalTrace L fe encErr msg now gs = t ++ [Event.exited 1]
          ∧ t.countP (fun e => isExitEv e) = 0) := by
  refine ⟨?_, ?_, ?_⟩
  · cases hgt : ent.level.gt Level.error <;>
      simp [countSync, ioFacilityLog, hgt, isSyncEv]
  · intro h
    refine ⟨[Event.write ent.message ent.level ent.time encErr.isNone, Event.free],
      [], ?_, ?_⟩
    · simp [ioFacilityLog, h]
    · simp [hasWrite, isWriteEv]
  · refine ⟨loggerCallTrace L fe encErr Level.fatal msg now gs, rfl, ?_⟩
    rw [List.countP_eq_zero]
    intro e he
    simpa using body_not_exit (loggerLogTrace_body L fe encErr _ gs e he)

/-- C2 witness: for a concrete Fatal-severity record the facility syncs
exactly once, and the sync follows the written bytes. -/
theorem c2_witness :
    countSync (ioFacilityLog none ⟨0, Level.fatal, ("m")⟩ []) = 1
    ∧ ∃ a b, ioFacilityLog none ⟨0, Level.fatal, ("m")⟩ []
        = a ++ Event.sync :: b ∧ hasWrite a = true := by
  have h := c2_flush_then_exit none ⟨0, Level.fatal, ("m")⟩ []
      ⟨Level.info, false, []⟩ (fun _ => true) ("m") 0 []
  exact ⟨by rw [h.1]; decide, h.2.1 (by decide)⟩

/-- C7: at a failing input (an entry whose `WriteEntry` fails), the
current `ioFacility.Log` emits no internal error report of any cause —
the error is swallowed behind a TODO comment — while the logging call
still completes its remaining steps normally and propagates nothing. -/
theorem c7_encoder_error_unreported :
    countInternalErr (ioFacilityLog (some ("disk full")) ⟨0, Level.info, ("m")⟩ []) = 0
    ∧ ioFacilityLog (some ("disk full")) ⟨0, Level.info, ("m")⟩ []
        = [Event.write ("m") Level.info 0 false, Event.free] := by decide

/-- C3: `Logger.With` returns a child sharing the parent's threshold,
hook list, error sink and development flag, whose facility is the
parent's facility derived with the extra fields appended to its
context; and the parent's own logging is unaffected by the derivation —
a parent log call appends exactly the record built from the parent's
own context, whether it runs on a fresh sink or after the derived child
has itself logged. -/
theorem c3_with_frame (L : SpyLogger) (fs : List Field) :
    ((spyLoggerWith L fs).threshold = L.threshold
      ∧ (spyLoggerWith L fs).hooks = L.hooks
      ∧ (spyLoggerWith L fs).errorOutput = L.errorOutput
      ∧ (spyLoggerWith L fs).development = L.development
      ∧ (spyLoggerWith L fs).fac = spyFacilityWith L.fac fs)
    ∧ (∀ ent gs sink, spyLoggerLog L ent gs sink
        = sink ++ (if levelEnabled L.threshold ent.level = true then
            [⟨(applyHooks L.hooks ent).level, (applyHooks L.hooks ent).message,
               L.fac.context ++ gs⟩] else []))
    ∧ (∀ entc gsc ent gs sink,
        spyLoggerLog L ent gs (spyLoggerLog (spyLoggerWith L fs) entc gsc sink)
          = spyLoggerLog (spyLoggerWith L fs) entc gsc sink
            ++ (if levelEnabled L.threshold ent.level = true then
                [⟨(applyHooks L.hooks ent).level, (applyHooks L.hooks ent).message,
                   L.fac.context ++ gs⟩] else [])) := by
  have key : ∀ ent gs sink, spyLoggerLog L ent gs sink
      = sink ++ (if levelEnabled L.threshold ent.level = true then
          [⟨(applyHooks L.hooks ent).level, (applyHooks L.hooks ent).message,
             L.fac.context ++ gs⟩] else []) := by
    intro ent gs sink
    unfold spyLoggerLog
    cases h1 : levelEnabled L.threshold ent.level
    · simp
    · simp only [Bool.not_true, Bool.false_eq_true, if_false, spyFacilityEnabled,
        spyFacilityLog, sinkWriteLog, runHooks_fst, if_true]
  exact ⟨⟨rfl, rfl, rfl, rfl, rfl⟩, key, fun entc gsc ent gs sink => key ent gs _⟩

/-- C4: when a record survives both gates, each hook that returns an
error yields exactly one internal error report and every report carries
the `hook` cause; failing hooks stop neither the remaining hooks (the
delivered record reflects the whole pipeline) nor delivery itself. -/
theorem c4_hook_error_isolation (L : Logger) (fe : Entry → Bool)
    (encErr : Option String) (ent : Entry) (fs : List Field)
    (hgate : levelEnabled L.threshold ent.level = true) (hfe : fe ent = true) :
    countHookErr (loggerLogTrace L fe encErr ent fs) = countFail L.hooks ent
    ∧ countInternalErr (loggerLogTrace L fe encErr ent fs) = countFail L.hooks ent
    ∧ hasWrite (loggerLogTrace L fe encErr ent fs) = true
    ∧ Event.write (applyHooks L.hooks ent).message (applyHooks L.hooks ent).level
        (applyHooks L.hooks ent).time encErr.isNone
        ∈ loggerLogTrace L fe encErr ent fs := by
  have htr := loggerLogTrace_pass L fe encErr ent fs hgate hfe
  have hio : ∀ p : Event → Bool, (∀ x, isInternalErrEv x = false → p x = false) →
      (ioFacilityLog encErr (runHooks L.hooks ent).1 fs).countP p = 0 := by
    intro p hp
    rw [List.countP_eq_zero]
    intro e he
    rcases mem_ioFacilityLog encErr _ fs e he with h | h | h <;>
      subst h <;> simp [hp, isInternalErrEv]
  have hhooks : ∀ p : Event → Bool,
      (∀ s, p (Event.internalError Cause.hook s) = true) →
      (runHooks L.hooks ent).2.countP p = countFail L.hooks ent := by
    intro p hp
    rw [← runHooks_events_length L.hooks ent]
    rw [List.countP_eq_length]
    intro e he
    rcases runHooks_events_hookErr L.hooks ent e he with ⟨s, rfl⟩
    exact hp s
  refine ⟨?_, ?_, ?_, ?_⟩
  · rw [htr]
    unfold countHookErr
    rw [List.countP_append, hio _ (by intro x hx; cases x <;> simp_all [isHookErrEv, isInternalErrEv]),
      hhooks _ (fun s => rfl)]
    omega
  · rw [htr]
    unfold countInternalErr
    rw [List.countP_append, hio _ (by intro x hx; exact hx),
      hhooks _ (fun s => rfl)]
    omega
  · rw [htr]
    simp [hasWrite, ioFacilityLog, isWriteEv, List.any_append]
  · rw [htr, List.mem_append, runHooks_fst]
    right
    unfold ioFacilityLog
    exact List.mem_append_left _ (List.mem_cons_self _ _)

/-- C4 witness: a logger with one failing hook followed by a mutating
hook produces exactly one internal error report yet still delivers. -/
theorem c4_witness :
    countHookErr (loggerLogTrace ⟨Level.info, false,
        [fun e => (e, some ("boom")), fun e => ({ e with message := ("mut") }, none)]⟩
        (fun _ => true) none ⟨0, Level.info, ("m")⟩ []) = 1
    ∧ hasWrite (loggerLogTrace ⟨Level.info, false,
        [fun e => (e, some ("boom")), fun e => ({ e with message := ("mut") }, none)]⟩
        (fun _ => true) none ⟨0, Level.info, ("m")⟩ []) = true := by
  have h := c4_hook_error_isolation ⟨Level.info, false,
      [fun e => (e, some ("boom")), fun e => ({ e with message := ("mut") }, none)]⟩
      (fun _ => true) none ⟨0, Level.info, ("m")⟩ [] (by decide) rfl
  exact ⟨by rw [h.1]; rfl, h.2.2.1⟩

/-- C5: when a record survives both gates, the record handed to
facility delivery is the original entry with every registered hook
applied in registration order (so hook mutations of message, severity
or timestamp are reflected), and applying a concatenation of hook lists
equals applying the first list and then the second. -/
theorem c5_hook_mutation_order (L : Logger) (fe : Entry → Bool)
    (encErr : Option String) (ent : Entry) (fs : List Field)
    (hgate : levelEnabled L.threshold ent.level = true) (hfe : fe ent = true) :
    (∃ pre, loggerLogTrace L fe encErr ent fs
        = pre ++ ioFacilityLog encErr (applyHooks L.hooks ent) fs)
    ∧ ∀ hs1 hs2 e, applyHooks (hs1 ++ hs2) e = applyHooks hs2 (applyHooks hs1 e) := by
  constructor
  · refine ⟨(runHooks L.hooks ent).2, ?_⟩
    rw [loggerLogTrace_pass L fe encErr ent fs hgate hfe, runHooks_fst]
  · intro hs1 hs2 e
    simp [applyHooks, List.foldl_append]

/-- C5 witness: a hook that rewrites the message is reflected in the
record delivered to the facility. -/
theorem c5_witness :
    ∃ pre, loggerLogTrace ⟨Level.info, false,
        [fun e => ({ e with message := ("mut") }, none)]⟩
        (fun _ => true) none ⟨0, Level.info, ("m")⟩ []
      = pre ++ ioFacilityLog none ⟨0, Level.info, ("mut")⟩ [] := by
  have h := (c5_hook_mutation_order ⟨Level.info, false,
      [fun e => ({ e with message := ("mut") }, none)]⟩
      (fun _ => true) none ⟨0, Level.info, ("m")⟩ [] (by decide) rfl).1
  exact h

/-- C6: `Logger.Check` returns a token exactly when the severity is
Panic or Fatal, or is DPanic with development mode on, or passes both
the threshold gate and the facility eligibility gate; every returned
token is bound to the logger's facility and carries the checked entry. -/
theorem c6_check_gating {F : Type} (L : Logger) (fac : F) (fe : Entry → Bool)
    (lvl : Level) (msg : String) (now : Nat) :
    (loggerCheck L fac fe lvl msg now).isSome
      = (lvl == Level.panic || lvl == Level.fatal
          || (lvl == Level.dpanic && L.development)
          || (levelEnabled L.threshold lvl && fe ⟨now, lvl, msg⟩))
    ∧ ∀ ent f, loggerCheck L fac fe lvl msg now = some (ent, f) →
        f = fac ∧ ent = ⟨now, lvl, msg⟩ := by
  constructor
  · unfold loggerCheck
    split_ifs with h1 h2 h3 <;>
      first
        | (simp_all [beq_iff_eq]; done)
        | (cases hfe : fe ⟨now, lvl, msg⟩ <;> simp_all [beq_iff_eq])
  · intro ent f h
    unfold loggerCheck at h
    split_ifs at h <;> simp_all

/-- C6 witness: at Panic severity with a disabled threshold the check
still returns a token bound to the given facility. -/
theorem c6_witness : (37 : Nat) = 37 ∧ (⟨5, Level.panic, ("m")⟩ : Entry) = ⟨5, Level.panic, ("m")⟩ :=
  (c6_check_gating (⟨Level.fatal, false, []⟩ : Logger) (37 : Nat) (fun _ => false)
      Level.panic ("m") 5).2 ⟨5, Level.panic, ("m")⟩ 37 rfl

/-- C8: a DPanic call raises exactly one panic carrying the message
when development mode is on and none otherwise; the panic comes only
after the gated logging step has completed (the logging step itself
contains no panic); with development mode off the call is exactly the
ordinary gated log call at DPanic severity. -/
theorem c8_dpanic_dev_gate (L : Logger) (fe : Entry → Bool) (encErr : Option String)
    (msg : String) (now : Nat) (fs : List Field) :
    countPanicked (loggerDPanicTrace L fe encErr msg now fs)
        = (if L.development then 1 else 0)
    ∧ (L.development = true →
        loggerDPanicTrace L fe encErr msg now fs
          = loggerCallTrace L fe encErr Level.dpanic msg now fs
              ++ [Event.panicked msg]
          ∧ countPanicked (loggerCallTrace L fe encErr Level.dpanic msg now fs) = 0)
    ∧ (L.development = false →
        loggerDPanicTrace L fe encErr msg now fs
          = loggerCallTrace L fe encErr Level.dpanic msg now fs) := by
  have hbody : countPanicked (loggerCallTrace L fe encErr Level.dpanic msg now fs) = 0 := by
    unfold countPanicked
    rw [List.countP_eq_zero]
    intro e he
    simpa using body_not_panicked
      (loggerLogTrace_body L fe encErr ⟨now, Level.dpanic, msg⟩ fs e he)
  refine ⟨?_, fun hdev => ⟨by unfold loggerDPanicTrace; rw [hdev]; rfl, hbody⟩,
    fun hdev => by unfold loggerDPanicTrace; rw [hdev]; simp⟩
  unfold loggerDPanicTrace countPanicked
  rw [List.countP_append]
  unfold countPanicked at hbody
  rw [hbody]
  cases hdev : L.development <;> simp [isPanickedEv]

/-- C8 witness: with development mode on, a concrete DPanic call is the
gated log call followed by exactly the panic carrying the message. -/
theorem c8_witness :
    loggerDPanicTrace ⟨Level.info, true, []⟩ (fun _ => true) none ("b") 0 []
      = loggerCallTrace ⟨Level.info, true, []⟩ (fun _ => true) none
          Level.dpanic ("b") 0 [] ++ [Event.panicked ("b")] :=
  ((c8_dpanic_dev_gate ⟨Level.info, true, []⟩ (fun _ => true) none ("b") 0 []).2.1 rfl).1

/-- C10: a spy-facility delivery appends exactly one record to the
sink, whose field sequence is the accumulated context followed by the
per-call fields, both in their original order, and which carries the
entry's level and message. -/
theorem c10_context_then_call_fields (sf : SpyFacility) (ent : Entry)
    (fs : List Field) (sink : List SpyLog) :
    ∃ r, spyFacilityLog sf ent fs sink = sink ++ [r]
      ∧ r.fields = sf.context ++ fs
      ∧ r.fields.take sf.context.length = sf.context
      ∧ r.fields.drop sf.context.length = fs
      ∧ r.level = ent.level ∧ r.msg = ent.message := by
  refine ⟨⟨ent.level, ent.message, sf.context ++ fs⟩, rfl, rfl, ?_, ?_, rfl, rfl⟩
  · simp
  · simp

lemma runSched_cons_eq (j : Nat) (s : List Nat) (pend : Nat → List SpyLog)
    (r : SpyLog) (rest : List SpyLog) (hpj : pend j = r :: rest) :
    runSched (j :: s) pend = r :: runSched s (Function.update pend j rest) := by
  simp only [runSched]
  rw [hpj]

lemma runSched_cons_nil (j : Nat) (s : List Nat) (pend : Nat → List SpyLog)
    (hpj : pend j = []) :
    runSched (j :: s) pend = runSched s pend := by
  simp only [runSched]
  rw [hpj]

lemma runSched_valid_step (s : List Nat) (pend : Nat → List SpyLog) (j : Nat)
    (r : SpyLog) (rest : List SpyLog)
    (hval : ∀ i, (j :: s).count i = (pend i).length) (hpj : pend j = r :: rest) :
    ∀ k, s.count k = (Function.update pend j rest k).length := by
  intro k
  by_cases hk : k = j
  · subst hk
    have h := hval k
    rw [hpj, List.count_cons_self] at h
    rw [Function.update_same]
    simp at h
    omega
  · have h := hval k
    rw [List.count_cons_of_ne hk] at h
    rw [Function.update_noteq hk]
    exact h

lemma runSched_length (sched : List Nat) : ∀ pend : Nat → List SpyLog,
    (∀ i, sched.count i = (pend i).length) →
    (runSched sched pend).length = sched.length := by
  induction sched with
  | nil => intro pend hval; rfl
  | cons j s ih =>
      intro pend hval
      rcases hpj : pend j with _ | ⟨r, rest⟩
      · have h := hval j
        rw [hpj, List.count_cons_self] at h
        simp at h
      · rw [runSched_cons_eq j s pend r rest hpj, List.length_cons,
          ih _ (runSched_valid_step s pend j r rest hval hpj), List.length_cons]

lemma runSched_sublist (sched : List Nat) : ∀ pend : Nat → List SpyLog,
    (∀ i, sched.count i = (pend i).length) →
    ∀ i, List.Sublist (pend i) (runSched sched pend) := by
  induction sched with
  | nil =>
      intro pend hval i
      have h := hval i
      simp only [List.count_nil] at h
      rw [List.length_eq_zero.mp h.symm]
      exact List.nil_sublist _
  | cons j s ih =>
      intro pend hval i
      rcases hpj : pend j with _ | ⟨r, rest⟩
      · have h := hval j
        rw [hpj, List.count_cons_self] at h
        simp at h
      · rw [runSched_cons_eq j s pend r rest hpj]
        have hval2 := runSched_valid_step s pend j r rest hval hpj
        by_cases hi : i = j
        · subst hi
          rw [hpj]
          refine List.Sublist.cons₂ r ?_
          have h := ih _ hval2 i
          rwa [Function.update_same] at h
        · have h := ih _ hval2 i
          rw [Function.update_noteq hi] at h
          exact h.cons r

lemma runSched_mem (sched : List Nat) : ∀ (pend : Nat → List SpyLog) (r : SpyLog),
    r ∈ runSched sched pend → ∃ i, r ∈ pend i := by
  induction sched with
  | nil => intro pend r hr; simp [runSched] at hr
  | cons j s ih =>
      intro pend r hr
      rcases hpj : pend j with _ | ⟨a, rest⟩
      · rw [runSched_cons_nil j s pend hpj] at hr
        exact ih pend r hr
      · rw [runSched_cons_eq j s pend a rest hpj] at hr
        rcases List.mem_cons.mp hr with rfl | hr
        · exact ⟨j, by rw [hpj]; exact List.mem_cons_self _ _⟩
        · rcases ih _ r hr with ⟨k, hk⟩
          by_cases hkj : k = j
          · subst hkj
            rw [Function.update_same] at hk
            exact ⟨k, by rw [hpj]; exact List.mem_cons_of_mem _ hk⟩
          · rw [Function.update_noteq hkj] at hk
            exact ⟨k, hk⟩

lemma sched_length_from_counts (sched : List Nat) (pend : Nat → List SpyLog)
    (n m : Nat) (hval : ∀ i, sched.count i = (pend i).length)
    (hm : ∀ i, i < n → (pend i).length = m)
    (hz : ∀ i, n ≤ i → pend i = []) :
    sched.length = n * m := by
  have hsub : sched.toFinset ⊆ Finset.range n := by
    intro a ha
    rw [List.mem_toFinset] at ha
    rw [Finset.mem_range]
    by_contra hna
    push_neg at hna
    have h0 := hval a
    rw [hz a hna] at h0
    simp only [List.length_nil] at h0
    exact absurd ha (List.count_eq_zero.mp h0)
  have h1 : ∑ a in sched.toFinset, sched.count a = sched.length := by
    simp [Multiset.coe_count, Multiset.coe_card]
  have h2 : ∑ a in Finset.range n, sched.count a
      = ∑ a in sched.toFinset, sched.count a := by
    refine (Finset.sum_subset hsub ?_).symm
    intro x hx hnx
    rw [List.mem_toFinset] at hnx
    exact List.count_eq_zero.mpr hnx
  have h3 : ∑ a in Finset.range n, sched.count a = ∑ _a in Finset.range n, m := by
    refine Finset.sum_congr rfl ?_
    intro x hx
    rw [Finset.mem_range] at hx
    rw [hval x, hm x hx]
  rw [← h1, ← h2, h3]
  simp [Finset.sum_const, Finset.card_range, Nat.smul_one_eq_cast]

/-- C9: in the interleaving model of the locked spy sink — where each
`Sink.WriteLog` is one atomic append, as enforced by the sink's mutex —
any schedule that lets n callers complete m pending calls each leaves
exactly n×m records in the sink; each caller's records appear in the
sink in that caller's issue order (the write order is a serialization of
all calls); and every sink record is one of the issued records, complete
and unmerged. -/
theorem c9_serialized_sink (sched : List Nat) (pend : Nat → List SpyLog) (n m : Nat)
    (hval : ∀ i, sched.count i = (pend i).length)
    (hm : ∀ i, i < n → (pend i).length = m)
    (hz : ∀ i, n ≤ i → pend i = []) :
    (runSched sched pend).length = n * m
    ∧ (∀ i, List.Sublist (pend i) (runSched sched pend))
    ∧ ∀ r ∈ runSched sched pend, ∃ i, r ∈ pend i := by
  refine ⟨?_, runSched_sublist sched pend hval,
    fun r hr => runSched_mem sched pend r hr⟩
  rw [runSched_length sched pend hval]
  exact sched_length_from_counts sched pend n m hval hm hz

/-- C9 witness: two callers with two pending records each, interleaved
by the schedule [0, 1, 1, 0], produce exactly 2×2 complete records, and
each caller's two records appear in issue order. -/
theorem c9_witness :
    (runSched [0, 1, 1, 0] pendTwo).length = 2 * 2
    ∧ List.Sublist (pendTwo 0) (runSched [0, 1, 1, 0] pendTwo)
    ∧ List.Sublist (pendTwo 1) (runSched [0, 1, 1, 0] pendTwo) := by
  have h := c9_serialized_sink [0, 1, 1, 0] pendTwo 2 2
    (by intro i; rcases i with _ | (_ | i) <;> rfl)
    (by intro i hi; rcases i with _ | (_ | i) <;> first | rfl | omega)
    (by intro i hi; rcases i with _ | (_ | i) <;> first | rfl | omega)
  exact ⟨h.1, h.2.1 0, h.2.1 1⟩

end Zap
